import Mathlib

/-!
Verification of the deciduous move-generation core: a shallow embedding of
`src/deciduous/src/board.rs`, `src/deciduous/src/moves.rs` and
`src/deciduous/src/utils.rs` into Lean.  Rust `u64` values are embedded as
`Nat` kept below `2 ^ 64`; every left shift that could overflow 64 bits is
followed by an explicit `% 2 ^ 64` (`shl64`), and bitwise complement `!x`
is `comp64`.  Fallible operations (`Option` returns, index-out-of-bounds)
are embedded as `Option`, with `none` standing for the out-of-bounds case.
-/

namespace Deciduous

/-- All bits set in the a-file (constant `A_FILE` in moves.rs / board.rs). -/
def A_FILE : Nat := 0x0101010101010101

/-- All bits set in the 1st rank (constant `FIRST_RANK`). -/
def FIRST_RANK : Nat := 0x00000000000000FF

/-- The universal set with all 64 bits set (constant `UNIVERSAL_SET`). -/
def UNIVERSAL_SET : Nat := 18446744073709551615

/-- Rust `u64` left shift: shift and truncate to 64 bits. -/
def shl64 (x n : Nat) : Nat := (x <<< n) % 2 ^ 64

/-- Rust `u64` bitwise complement `!x`. -/
def comp64 (x : Nat) : Nat := UNIVERSAL_SET ^^^ x

/-- board.rs `square_idx` (same body as the `square_index` used by moves.rs):
`rank_idx * 8 + file_idx`.  The Rust function asserts `rank_idx < 8` and
`file_idx < 8`; the in-range facts are proved where the function is used. -/
def square_idx (rank_idx file_idx : Nat) : Nat := rank_idx * 8 + file_idx

/-- board.rs `rank_idx` (same body as the `rank_index` used by moves.rs):
`square_idx >> 3`. -/
def rank_idx (square_idx : Nat) : Nat := square_idx >>> 3

/-- board.rs `file_idx` (same body as the `file_index` used by moves.rs):
`square_idx & 7`. -/
def file_idx (square_idx : Nat) : Nat := square_idx &&& 7

/-- Modelled from the spec: `diag_index` (used by moves.rs but not present
under src/), `diag = 7 + rank - file`. -/
def diag_index (idx : Nat) : Nat := 7 + rank_idx idx - file_idx idx

/-- Modelled from the spec: `anti_diag_index` (used by moves.rs but not
present under src/), `anti_diag = rank + file`. -/
def anti_diag_index (idx : Nat) : Nat := rank_idx idx + file_idx idx

/-- moves.rs `fill_rank`: the first rank shifted up to `rank_idx`
(the Rust function asserts `rank_idx < 8`). -/
def fill_rank (rank_idx : Nat) : Nat := shl64 FIRST_RANK (rank_idx * 8)

/-- moves.rs `fill_file`: the a-file shifted over to `file_idx`
(the Rust function asserts `file_idx < 8`). -/
def fill_file (file_idx : Nat) : Nat := shl64 A_FILE file_idx

/-- moves.rs `rank_range`: OR of `fill_rank` over `[start, end]`, end
inclusive (the Rust function asserts `start <= end <= 8`). -/
def rank_range (start end' : Nat) : Nat :=
  (List.range' start (end' + 1 - start)).foldl (fun result rank_idx => result ||| fill_rank rank_idx) 0

/-- moves.rs `file_range`: OR of `fill_file` over `[start, end]`, end
inclusive. -/
def file_range (start end' : Nat) : Nat :=
  (List.range' start (end' + 1 - start)).foldl (fun result file_idx => result ||| fill_file file_idx) 0

/-- The `mask_rank` table `MoveGen` builds: `mask_rank[idx] = fill_rank(idx)`. -/
def mask_rank (idx : Nat) : Nat := fill_rank idx

/-- The `mask_file` table: `mask_file[idx] = fill_file(idx)`. -/
def mask_file (idx : Nat) : Nat := fill_file idx

/-- The `clear_rank` table: bitwise complement of `mask_rank`. -/
def clear_rank (idx : Nat) : Nat := comp64 (mask_rank idx)

/-- The `clear_file` table: bitwise complement of `mask_file`. -/
def clear_file (idx : Nat) : Nat := comp64 (mask_file idx)

/-- The `mask_diag` table: for each square index below 64, OR its bit into
the entry at its diagonal index. -/
def mask_diag (d : Nat) : Nat :=
  (List.range 64).foldl (fun acc idx => if diag_index idx = d then acc ||| shl64 1 idx else acc) 0

/-- The `mask_anti_diag` table, built like `mask_diag` from `anti_diag_index`. -/
def mask_anti_diag (d : Nat) : Nat :=
  (List.range 64).foldl (fun acc idx => if anti_diag_index idx = d then acc ||| shl64 1 idx else acc) 0

/-- The `north` ray table: for the square at (rank, file),
`rank_range(rank, 7) & (mask_file[file] & clear_rank[rank])`. -/
def north_ray (idx : Nat) : Nat :=
  rank_range (rank_idx idx) 7 &&& (mask_file (file_idx idx) &&& clear_rank (rank_idx idx))

/-- The `south` ray table: `rank_range(0, rank) & vertical`. -/
def south_ray (idx : Nat) : Nat :=
  rank_range 0 (rank_idx idx) &&& (mask_file (file_idx idx) &&& clear_rank (rank_idx idx))

/-- The `west` ray table: `file_range(0, file) & horizontal`. -/
def west_ray (idx : Nat) : Nat :=
  file_range 0 (file_idx idx) &&& (mask_rank (rank_idx idx) &&& clear_file (file_idx idx))

/-- The `east` ray table: `file_range(file, 7) & horizontal`. -/
def east_ray (idx : Nat) : Nat :=
  file_range (file_idx idx) 7 &&& (mask_rank (rank_idx idx) &&& clear_file (file_idx idx))

/-- The `north_east` ray table: start from the square's own bit, eight times
OR in a one-step north-east shift masked by `clear_file[7]`, then clear the
origin bit. -/
def north_east_ray (idx : Nat) : Nat :=
  let s := (List.range 8).foldl (fun s _ => s ||| shl64 (s &&& clear_file 7) 9) (shl64 1 idx)
  s &&& comp64 (shl64 1 idx)

/-- The `north_west` ray table (shift +7 masked by `clear_file[0]`). -/
def north_west_ray (idx : Nat) : Nat :=
  let s := (List.range 8).foldl (fun s _ => s ||| shl64 (s &&& clear_file 0) 7) (shl64 1 idx)
  s &&& comp64 (shl64 1 idx)

/-- The `south_east` ray table (shift -7 masked by `clear_file[7]`). -/
def south_east_ray (idx : Nat) : Nat :=
  let s := (List.range 8).foldl (fun s _ => s ||| ((s &&& clear_file 7) >>> 7)) (shl64 1 idx)
  s &&& comp64 (shl64 1 idx)

/-- The `south_west` ray table (shift -9 masked by `clear_file[0]`). -/
def south_west_ray (idx : Nat) : Nat :=
  let s := (List.range 8).foldl (fun s _ => s ||| ((s &&& clear_file 0) >>> 9)) (shl64 1 idx)
  s &&& comp64 (shl64 1 idx)

/-- moves.rs `Orientation`. -/
inductive Orientation where
  | North
  | NorthEast
  | East
  | SouthEast
  | South
  | SouthWest
  | West
  | NorthWest
deriving DecidableEq, Fintype

/-- moves.rs `Axis`. -/
inductive Axis where
  | Rank
  | File
  | Diagonal
  | AntiDiagonal
deriving DecidableEq

/-- moves.rs `Orientation::antipode`: the opposite orientation. -/
def Orientation.antipode : Orientation → Orientation
  | .North => .South
  | .NorthEast => .SouthWest
  | .East => .West
  | .SouthEast => .NorthWest
  | .South => .North
  | .SouthWest => .NorthEast
  | .West => .East
  | .NorthWest => .SouthEast

/-- moves.rs `Orientation::axis`: the axis the orientation lies along. -/
def Orientation.axis : Orientation → Axis
  | .North => .File
  | .NorthEast => .Diagonal
  | .East => .Rank
  | .SouthEast => .AntiDiagonal
  | .South => .File
  | .SouthWest => .Diagonal
  | .West => .Rank
  | .NorthWest => .AntiDiagonal

/-- moves.rs `MoveGen::ray`: dispatch on orientation into the ray tables. -/
def ray (sq_idx : Nat) (orientation : Orientation) : Nat :=
  match orientation with
  | .North => north_ray sq_idx
  | .NorthEast => north_east_ray sq_idx
  | .East => east_ray sq_idx
  | .SouthEast => south_east_ray sq_idx
  | .South => south_ray sq_idx
  | .SouthWest => south_west_ray sq_idx
  | .West => west_ray sq_idx
  | .NorthWest => north_west_ray sq_idx

/-- moves.rs `MoveGen::north_attacks` (dumb7fill): flood 7 times through
empty squares, then shift one final step. -/
def north_attacks (sliders empty : Nat) : Nat :=
  let flood := (List.range 7).foldl (fun flood _ => flood ||| (shl64 flood 8 &&& empty)) sliders
  shl64 flood 8

/-- moves.rs `MoveGen::north_east_attacks` (dumb7fill masked by
`clear_file[0]` to block a-file wraparound). -/
def north_east_attacks (sliders empty : Nat) : Nat :=
  let mask := empty &&& clear_file 0
  let flood := (List.range 7).foldl (fun flood _ => flood ||| (shl64 flood 9 &&& mask)) sliders
  shl64 flood 9 &&& clear_file 0

/-- moves.rs `MoveGen::east_attacks`. -/
def east_attacks (sliders empty : Nat) : Nat :=
  let mask := empty &&& clear_file 0
  let flood := (List.range 7).foldl (fun flood _ => flood ||| (shl64 flood 1 &&& mask)) sliders
  shl64 flood 1 &&& clear_file 0

/-- moves.rs `MoveGen::south_east_attacks`. -/
def south_east_attacks (sliders empty : Nat) : Nat :=
  let mask := empty &&& clear_file 0
  let flood := (List.range 7).foldl (fun flood _ => flood ||| ((flood >>> 7) &&& mask)) sliders
  (flood >>> 7) &&& clear_file 0

/-- moves.rs `MoveGen::south_attacks`. -/
def south_attacks (sliders empty : Nat) : Nat :=
  let flood := (List.range 7).foldl (fun flood _ => flood ||| ((flood >>> 8) &&& empty)) sliders
  flood >>> 8

/-- moves.rs `MoveGen::south_west_attacks`. -/
def south_west_attacks (sliders empty : Nat) : Nat :=
  let mask := empty &&& clear_file 7
  let flood := (List.range 7).foldl (fun flood _ => flood ||| ((flood >>> 9) &&& mask)) sliders
  (flood >>> 9) &&& clear_file 7

/-- moves.rs `MoveGen::west_attacks`. -/
def west_attacks (sliders empty : Nat) : Nat :=
  let mask := empty &&& clear_file 7
  let flood := (List.range 7).foldl (fun flood _ => flood ||| ((flood >>> 1) &&& mask)) sliders
  (flood >>> 1) &&& clear_file 7

/-- moves.rs `MoveGen::north_west_attacks`. -/
def north_west_attacks (sliders empty : Nat) : Nat :=
  let mask := empty &&& clear_file 7
  let flood := (List.range 7).foldl (fun flood _ => flood ||| (shl64 flood 7 &&& mask)) sliders
  shl64 flood 7 &&& clear_file 7

/-- Helper for `trailing_zeros`: scan bits upward from `k` with the given
fuel; when the fuel runs out the answer is `k + fuel` steps past the start. -/
def tzAux (state : Nat) : Nat → Nat → Nat
  | 0, k => k
  | fuel + 1, k => if state.testBit k then k else tzAux state fuel (k + 1)

/-- Rust `u64::trailing_zeros`: the index of the lowest set bit, 64 when no
bit below 64 is set. -/
def trailing_zeros (state : Nat) : Nat := tzAux state 64 0

/-- board.rs / moves.rs `bitscan_lsd`: square index of the first set bit,
`none` when no bit is set. -/
def bitscan_lsd (state : Nat) : Option Nat :=
  let trailing := trailing_zeros state
  if trailing = 64 then none else some trailing

/-- Fuelled body of moves.rs `serialize_board`: while `state != 0`, pop the
lowest set bit and record its index.  Each iteration clears one bit, so for
a 64-bit state the fuel of 64 used below never runs out. -/
def serializeAux : Nat → Nat → List Nat
  | 0, _ => []
  | fuel + 1, state =>
    if state = 0 then []
    else
      match bitscan_lsd state with
      | none => []
      | some occ_idx => occ_idx :: serializeAux fuel (state ^^^ shl64 1 occ_idx)

/-- moves.rs `serialize_board`: the indices of the set bits, lowest first. -/
def serialize_board (state : Nat) : List Nat := serializeAux 64 state

/-- moves.rs `Color`. -/
inductive Color where
  | White
  | Black
deriving DecidableEq

/-- moves.rs `Piece`. -/
inductive Piece where
  | Pawn
  | Bishop
  | Knight
  | Rook
  | King
  | Queen
deriving DecidableEq

/-- moves.rs `MoveCategory`. -/
inductive MoveCategory where
  | Normal
  | Queenside
  | Kingside
  | EnPassant
deriving DecidableEq

/-- moves.rs `Move`.  board.rs has an older `Move` without the `category`
field and otherwise identical; the embedded `make_move` below ignores
`category`, so one structure serves both.  `from` and `to` are Lean keywords (with Mathlib loaded), hence
the field names `from'` and `to'`. -/
structure Move where
  from' : Nat
  to' : Nat
  piece : Piece
  color : Color
  capture : Option Piece
  category : MoveCategory
deriving DecidableEq

/-- board.rs `Color::board_index`. -/
def Color.board_index : Color → Nat
  | .White => 0
  | .Black => 1

/-- board.rs `Piece::board_index`. -/
def Piece.board_index : Piece → Nat
  | .Pawn => 2
  | .Bishop => 3
  | .Knight => 4
  | .Rook => 5
  | .King => 6
  | .Queen => 7

/-- One `board[i] ^= v` statement of board.rs `make_move`: the `[u64; 8]`
array is embedded as a function from index to value. -/
def updXor (board : Nat → Nat) (i : Nat) (v : Nat) : Nat → Nat :=
  Function.update board i (board i ^^^ v)

/-- board.rs `make_move`: XOR-toggle the from/to bits in the mover's color
board (and the captured bit out of the other color board), the captured
piece's type board, and the moving piece's type board. -/
def make_move (board : Nat → Nat) (m : Move) : Nat → Nat :=
  let board1 :=
    match m.color with
    | .White =>
      let b := updXor board 0 (shl64 1 m.from')
      let b := updXor b 0 (shl64 1 m.to')
      match m.capture with
      | some _ => updXor b 1 (shl64 1 m.to')
      | none => b
    | .Black =>
      let b := updXor board 1 (shl64 1 m.from')
      let b := updXor b 1 (shl64 1 m.to')
      match m.capture with
      | some _ => updXor b 0 (shl64 1 m.to')
      | none => b
  let board2 :=
    match m.capture with
    | some capture => updXor board1 capture.board_index (shl64 1 m.to')
    | none => board1
  let board3 := updXor board2 m.piece.board_index (shl64 1 m.from')
  updXor board3 m.piece.board_index (shl64 1 m.to')

/-- board.rs `unmake_move`: XOR is its own inverse, so it just replays
`make_move`. -/
def unmake_move (board : Nat → Nat) (m : Move) : Nat → Nat := make_move board m

/-- Modelled from the spec: `CastlingRights`, two independent booleans.
The structure itself is not under src/ (moves.rs reads
`board.own_castling_rights.kingside`). -/
structure CastlingRights where
  kingside : Bool
  queenside : Bool
deriving DecidableEq

/-- Modelled from the spec: `UndoInfo`, the snapshot of both sides'
castling rights taken before a move is applied. -/
structure UndoInfo where
  own_castling_rights : CastlingRights
  opp_castling_rights : CastlingRights
deriving DecidableEq

/-- Modelled from the spec: the `Board` structure moves.rs generates moves
against (own/opp occupancy, slider and pawn bitboards, king square indices,
castling rights, orientation flag).  Its definition is not under src/; the
fields are exactly those the spec's data model lists and moves.rs reads. -/
structure Board where
  own_pieces : Nat
  opp_pieces : Nat
  ortho_sliders : Nat
  diag_sliders : Nat
  pawns : Nat
  own_king : Nat
  opp_king : Nat
  own_castling_rights : CastlingRights
  opp_castling_rights : CastlingRights
  flipped : Bool
deriving DecidableEq

/-- Modelled from the spec: `Board::empty()`, the complement of all
occupied squares. -/
def Board.empty (b : Board) : Nat := comp64 (b.own_pieces ||| b.opp_pieces)

/-- Modelled from the spec: `Board::rooks() = ortho_sliders & !diag_sliders`. -/
def Board.rooks (b : Board) : Nat := b.ortho_sliders &&& comp64 b.diag_sliders

/-- Modelled from the spec: `Board::bishops() = diag_sliders & !ortho_sliders`. -/
def Board.bishops (b : Board) : Nat := b.diag_sliders &&& comp64 b.ortho_sliders

/-- Modelled from the spec: `Board::queens() = ortho_sliders & diag_sliders`. -/
def Board.queens (b : Board) : Nat := b.ortho_sliders &&& b.diag_sliders

/-- Modelled from the spec: the kings' occupancy, derived from the two king
square indices. -/
def Board.kings (b : Board) : Nat := shl64 1 b.own_king ||| shl64 1 b.opp_king

/-- Modelled from the spec: `Board::knights()`, the occupied squares not
claimed by any other piece bitboard. -/
def Board.knights (b : Board) : Nat :=
  (b.own_pieces ||| b.opp_pieces) &&& comp64 (b.ortho_sliders ||| b.diag_sliders ||| b.pawns ||| b.kings)

/-- Modelled from the spec: `Board::color()`, the side to move under the
orientation flag. -/
def Board.color (b : Board) : Color := if b.flipped then Color.Black else Color.White

/-- Modelled from the spec: `Board::identify(square)` classifies the piece
at a square by testing membership in pawns, then rooks, bishops, queens,
kings, defaulting to knight. -/
def Board.identify (b : Board) (square : Nat) : Piece :=
  if shl64 1 square &&& b.pawns ≠ 0 then Piece.Pawn
  else if shl64 1 square &&& b.rooks ≠ 0 then Piece.Rook
  else if shl64 1 square &&& b.bishops ≠ 0 then Piece.Bishop
  else if shl64 1 square &&& b.queens ≠ 0 then Piece.Queen
  else if shl64 1 square &&& b.kings ≠ 0 then Piece.King
  else Piece.Knight

/-- Modelled from the spec: which type bitboards a piece's move toggles in
`move_involution` — the (ortho_sliders, diag_sliders, pawns) XOR masks for
one piece (rook/queen toggle ortho, bishop/queen toggle diag, pawn toggles
pawns, king and knight toggle neither). -/
def type_delta (p : Piece) (mask : Nat) : Nat × Nat × Nat :=
  match p with
  | .Pawn => (0, 0, mask)
  | .Bishop => (0, mask, 0)
  | .Knight => (0, 0, 0)
  | .Rook => (mask, 0, 0)
  | .King => (0, 0, 0)
  | .Queen => (mask, mask, 0)

/-- Modelled from the spec: `move_involution(move)`, the reversible part of
a move — XOR-toggle the from/to bits into `own_pieces` and into the moving
piece's type bitboards; when the move carries a capture, XOR-toggle the
captured square out of `opp_pieces` and out of the captured piece's type
bitboards.  Not under src/: board.rs holds only the older `[u64; 8]`
version (`make_move` above). -/
def move_involution (b : Board) (m : Move) : Board :=
  let mask := shl64 1 m.from' ^^^ shl64 1 m.to'
  let td := type_delta m.piece mask
  let capMask :=
    match m.capture with
    | some _ => shl64 1 m.to'
    | none => 0
  let cd :=
    match m.capture with
    | some capture => type_delta capture capMask
    | none => (0, 0, 0)
  { b with
    own_pieces := b.own_pieces ^^^ mask
    opp_pieces := b.opp_pieces ^^^ capMask
    ortho_sliders := b.ortho_sliders ^^^ td.1 ^^^ cd.1
    diag_sliders := b.diag_sliders ^^^ td.2.1 ^^^ cd.2.1
    pawns := b.pawns ^^^ td.2.2 ^^^ cd.2.2 }

/-- Modelled from the spec: `make_move(move) -> UndoInfo` over the full
`Board` (not under src/).  It invokes `move_involution`, snapshots both
castling-rights pairs before rights are updated, updates `own_king` when
the mover is the king, and clears castling rights: moving the king clears
both of the mover's rights; a rook departing its home square (own kingside
rook home 7, queenside 0) clears that side's right; a rook captured on its
home square (opponent kingside 63, queenside 56) clears that right for the
rook's owner. -/
def make_move_spec (b : Board) (m : Move) : Board × UndoInfo :=
  let b1 := move_involution b m
  let undo : UndoInfo := ⟨b.own_castling_rights, b.opp_castling_rights⟩
  let b2 := if m.piece = Piece.King then { b1 with own_king := m.to' } else b1
  let own_rights :=
    if m.piece = Piece.King then (⟨false, false⟩ : CastlingRights)
    else if m.piece = Piece.Rook ∧ m.from' = 7 then { b.own_castling_rights with kingside := false }
    else if m.piece = Piece.Rook ∧ m.from' = 0 then { b.own_castling_rights with queenside := false }
    else b.own_castling_rights
  let opp_rights :=
    if m.capture = some Piece.Rook ∧ m.to' = 63 then { b.opp_castling_rights with kingside := false }
    else if m.capture = some Piece.Rook ∧ m.to' = 56 then { b.opp_castling_rights with queenside := false }
    else b.opp_castling_rights
  ({ b2 with own_castling_rights := own_rights, opp_castling_rights := opp_rights }, undo)

/-- Modelled from the spec: `unmake_move(move, undo)` over the full `Board`
(not under src/): re-invoke `move_involution`, restore `own_king` to
`move.from` when the moved piece was a king, and restore both
castling-rights pairs from the undo record. -/
def unmake_move_spec (b : Board) (m : Move) (undo : UndoInfo) : Board :=
  let b1 := move_involution b m
  let b2 := if m.piece = Piece.King then { b1 with own_king := m.from' } else b1
  { b2 with
    own_castling_rights := undo.own_castling_rights
    opp_castling_rights := undo.opp_castling_rights }

/-- The `king_movement` table `MoveGen` builds: the eight one-step
king offsets, each gated by the file-clear mask that blocks horizontal
wraparound. -/
def king_movement (idx : Nat) : Nat :=
  let sq := shl64 1 idx
  shl64 sq 8 ||| (shl64 sq 9 &&& clear_file 0) ||| (shl64 sq 1 &&& clear_file 0) |||
    ((sq >>> 7) &&& clear_file 0) ||| (sq >>> 8) ||| ((sq >>> 9) &&& clear_file 7) |||
    ((sq >>> 1) &&& clear_file 7) ||| (shl64 sq 7 &&& clear_file 7)

/-- The `knight_movement` table `MoveGen` builds: the eight knight jump
offsets, each gated by the file-clear masks for its horizontal component. -/
def knight_movement (idx : Nat) : Nat :=
  let sq := shl64 1 idx
  (shl64 sq 17 &&& clear_file 0) ||| (shl64 sq 10 &&& (clear_file 0 &&& clear_file 1)) |||
    ((sq >>> 6) &&& (clear_file 0 &&& clear_file 1)) ||| ((sq >>> 15) &&& clear_file 0) |||
    ((sq >>> 17) &&& clear_file 7) ||| ((sq >>> 10) &&& (clear_file 6 &&& clear_file 7)) |||
    (shl64 sq 6 &&& (clear_file 6 &&& clear_file 7)) ||| (shl64 sq 15 &&& clear_file 7)

/-- moves.rs `MoveGen::parse_single_piece_moves`: pair the piece square with
each destination bit. -/
def parse_single_piece_moves (moves : Nat) (piece_idx : Nat) : List (Nat × Nat) :=
  (serialize_board moves).map (fun move_idx => (piece_idx, move_idx))

/-- utils.rs `bad_argsort`: keep the `Some` entries of the array in index
order. -/
def bad_argsort (arr : List (Option Nat)) : List Nat := arr.filterMap id

/-- The grouping key of the `axis_wise` loop of
`MoveGen::parse_sliding_moves`: the match on `orientation.axis()` stores a
slider under its file index on the Rank axis (east/west), its rank index on
the File axis (north/south), its anti-diagonal index on the Diagonal axis
(north-east/south-west) and its diagonal index on the AntiDiagonal axis
(south-east/north-west). -/
def axis_key (orientation : Orientation) (piece_idx : Nat) : Nat :=
  match orientation.axis with
  | .Rank => file_idx piece_idx
  | .File => rank_idx piece_idx
  | .Diagonal => anti_diag_index piece_idx
  | .AntiDiagonal => diag_index piece_idx

/-- The `axis_wise` array of `MoveGen::parse_sliding_moves`: a 15-entry
array of `Option`, filled by storing each serialized slider at its
`axis_key` (a later slider with the same key overwrites an earlier one). -/
def axis_wise_arr (orientation : Orientation) (piece_idxs : List Nat) : List (Option Nat) :=
  piece_idxs.foldl
    (fun arr piece_idx => arr.set (axis_key orientation piece_idx) (some piece_idx))
    (List.replicate 15 none)

/-- moves.rs `MoveGen::parse_sliding_moves`: sort the sliders along the
orientation's axis (reversed for the directions that flood toward
increasing indices), build one bounding mask per slider (the lead slider's
full ray; every later slider's ray intersected with the antipodal ray of
the slider before it), and hand each masked window to
`parse_single_piece_moves`.  `sorted_piece_idxs[0]` is indexed
unconditionally in the Rust; an empty slider set makes that index out of
bounds, embedded here as `none`. -/
def parse_sliding_moves (moves pieces : Nat) (orientation : Orientation) : Option (List (Nat × Nat)) :=
  let piece_idxs := serialize_board pieces
  let axis_wise := axis_wise_arr orientation piece_idxs
  let sorted0 := bad_argsort axis_wise
  let sorted_piece_idxs :=
    match orientation with
    | .North | .East | .NorthEast | .NorthWest => sorted0.reverse
    | _ => sorted0
  match sorted_piece_idxs with
  | [] => none
  | p0 :: rest =>
    let masks := ray p0 orientation ::
      (sorted_piece_idxs.zip rest).map
        (fun pc => ray pc.2 orientation &&& ray pc.1 orientation.antipode)
    some ((sorted_piece_idxs.zip masks).foldl
      (fun move_list pm => move_list ++ parse_single_piece_moves (pm.2 &&& moves) pm.1) [])

/-- moves.rs `MoveGen::ortho_moves`: flood `board.ortho_sliders` in the
four orthogonal directions, split each attack set into captures
(`& opp_pieces`) and quiet moves (`& !opp_pieces`), decompose both with
`parse_sliding_moves`, and emit Queen or Rook moves according to whether
the origin square carries a queen.  A panic inside `parse_sliding_moves`
propagates as `none`. -/
def ortho_moves (board : Board) : Option (List Move) := do
  let queens := board.queens
  let empty := board.empty
  let north := north_attacks board.ortho_sliders empty
  let north_captures ← parse_sliding_moves (north &&& board.opp_pieces) board.ortho_sliders .North
  let north_moves ← parse_sliding_moves (north &&& comp64 board.opp_pieces) board.ortho_sliders .North
  let east := east_attacks board.ortho_sliders empty
  let east_captures ← parse_sliding_moves (east &&& board.opp_pieces) board.ortho_sliders .East
  let east_moves ← parse_sliding_moves (east &&& comp64 board.opp_pieces) board.ortho_sliders .East
  let south := south_attacks board.ortho_sliders empty
  let south_captures ← parse_sliding_moves (south &&& board.opp_pieces) board.ortho_sliders .South
  let south_moves ← parse_sliding_moves (south &&& comp64 board.opp_pieces) board.ortho_sliders .South
  let west := west_attacks board.ortho_sliders empty
  let west_captures ← parse_sliding_moves (west &&& board.opp_pieces) board.ortho_sliders .West
  let west_moves ← parse_sliding_moves (west &&& comp64 board.opp_pieces) board.ortho_sliders .West
  let moves := north_moves ++ east_moves ++ south_moves ++ west_moves
  let captures := north_captures ++ east_captures ++ south_captures ++ west_captures
  let quiet_list := moves.map (fun ft =>
    if shl64 1 ft.1 &&& queens ≠ 0 then
      { from' := ft.1, to' := ft.2, piece := Piece.Queen, color := board.color,
        capture := none, category := MoveCategory.Normal }
    else
      { from' := ft.1, to' := ft.2, piece := Piece.Rook, color := board.color,
        capture := none, category := MoveCategory.Normal })
  let capture_list := captures.map (fun ft =>
    if shl64 1 ft.1 &&& queens ≠ 0 then
      { from' := ft.1, to' := ft.2, piece := Piece.Queen, color := board.color,
        capture := some (board.identify ft.2), category := MoveCategory.Normal }
    else
      { from' := ft.1, to' := ft.2, piece := Piece.Rook, color := board.color,
        capture := some (board.identify ft.2), category := MoveCategory.Normal })
  return quiet_list ++ capture_list

/-- moves.rs `MoveGen::diag_moves`: the diagonal analogue of `ortho_moves`,
emitting Queen or Bishop moves.  NOTE (faithful to the source): every one
of the four diagonal attack floods and every `parse_sliding_moves` call
reads `board.ortho_sliders`, not `board.diag_sliders`. -/
def diag_moves (board : Board) : Option (List Move) := do
  let queens := board.queens
  let empty := board.empty
  let north_east := north_east_attacks board.ortho_sliders empty
  let north_east_captures ← parse_sliding_moves (north_east &&& board.opp_pieces) board.ortho_sliders .NorthEast
  let north_east_moves ← parse_sliding_moves (north_east &&& comp64 board.opp_pieces) board.ortho_sliders .NorthEast
  let south_east := south_east_attacks board.ortho_sliders empty
  let south_east_captures ← parse_sliding_moves (south_east &&& board.opp_pieces) board.ortho_sliders .SouthEast
  let south_east_moves ← parse_sliding_moves (south_east &&& comp64 board.opp_pieces) board.ortho_sliders .SouthEast
  let south_west := south_west_attacks board.ortho_sliders empty
  let south_west_captures ← parse_sliding_moves (south_west &&& board.opp_pieces) board.ortho_sliders .SouthWest
  let south_west_moves ← parse_sliding_moves (south_west &&& comp64 board.opp_pieces) board.ortho_sliders .SouthWest
  let north_west := north_west_attacks board.ortho_sliders empty
  let north_west_captures ← parse_sliding_moves (north_west &&& board.opp_pieces) board.ortho_sliders .NorthWest
  let north_west_moves ← parse_sliding_moves (north_west &&& comp64 board.opp_pieces) board.ortho_sliders .NorthWest
  let moves := north_east_moves ++ south_east_moves ++ south_west_moves ++ north_west_moves
  let captures := north_east_captures ++ south_east_captures ++ south_west_captures ++ north_west_captures
  let quiet_list := moves.map (fun ft =>
    if shl64 1 ft.1 &&& queens ≠ 0 then
      { from' := ft.1, to' := ft.2, piece := Piece.Queen, color := board.color,
        capture := none, category := MoveCategory.Normal }
    else
      { from' := ft.1, to' := ft.2, piece := Piece.Bishop, color := board.color,
        capture := none, category := MoveCategory.Normal })
  let capture_list := captures.map (fun ft =>
    if shl64 1 ft.1 &&& queens ≠ 0 then
      { from' := ft.1, to' := ft.2, piece := Piece.Queen, color := board.color,
        capture := some (board.identify ft.2), category := MoveCategory.Normal }
    else
      { from' := ft.1, to' := ft.2, piece := Piece.Bishop, color := board.color,
        capture := some (board.identify ft.2), category := MoveCategory.Normal })
  return quiet_list ++ capture_list

/-- moves.rs `MoveGen::king_moves`.  NOTE (faithful to the source): the
second loop iterates over `parse_single_piece_moves(moves, king_idx)` —
the quiet-move bitboard again — not over the `captures` bitboard, which is
computed and then never used. -/
def king_moves (board : Board) : List Move :=
  let king_idx := board.own_king
  let empty := board.empty
  let color := board.color
  let movement := king_movement king_idx
  let moves := movement &&& empty
  let _captures := movement &&& board.opp_pieces
  (parse_single_piece_moves moves king_idx).map (fun ft =>
    { from' := ft.1, to' := ft.2, piece := Piece.King, color := color,
      capture := none, category := MoveCategory.Normal })
  ++ (parse_single_piece_moves moves king_idx).map (fun ft =>
    { from' := ft.1, to' := ft.2, piece := Piece.King, color := color,
      capture := some (board.identify ft.2), category := MoveCategory.Normal })

/-- A sequence of `board[i] ^= v` statements, applied in order. -/
def xorApply (l : List (Nat × Nat)) (f : Nat → Nat) : Nat → Nat :=
  l.foldl (fun g p => updXor g p.1 p.2) f

/-- The combined XOR toggled into index `i` by a sequence of
`board[i] ^= v` statements. -/
def xorSum (i : Nat) (l : List (Nat × Nat)) : Nat :=
  l.foldr (fun p acc => if p.1 = i then p.2 ^^^ acc else acc) 0

/-- The `(index, mask)` sequence of XOR statements board.rs `make_move`
executes for a move: color board toggles (plus the captured bit out of the
other color board), the captured piece's type-board toggle, then the moving
piece's type-board toggles. -/
def moveXorList (m : Move) : List (Nat × Nat) :=
  (match m.color with
   | .White =>
     [(0, shl64 1 m.from'), (0, shl64 1 m.to')] ++
       (match m.capture with
        | some _ => [(1, shl64 1 m.to')]
        | none => [])
   | .Black =>
     [(1, shl64 1 m.from'), (1, shl64 1 m.to')] ++
       (match m.capture with
        | some _ => [(0, shl64 1 m.to')]
        | none => [])) ++
  (match m.capture with
   | some capture => [(capture.board_index, shl64 1 m.to')]
   | none => []) ++
  [(m.piece.board_index, shl64 1 m.from'), (m.piece.board_index, shl64 1 m.to')]

/-! ### Lemmas -/

theorem updXor_apply (f : Nat → Nat) (k v j : Nat) :
    updXor f k v j = if j = k then f j ^^^ v else f j := by
  unfold updXor
  rcases eq_or_ne j k with h | h
  · subst h; simp [Function.update_apply]
  · simp [Function.update_apply, h]

theorem xor_xor_cancel (x a : Nat) : x ^^^ a ^^^ a = x := by
  rw [Nat.xor_assoc, Nat.xor_self, Nat.xor_zero]

theorem xor_swap_cancel (x a c : Nat) : x ^^^ a ^^^ c ^^^ a ^^^ c = x := by
  have h : x ^^^ a ^^^ c ^^^ a = x ^^^ c := by
    rw [Nat.xor_assoc (x ^^^ a) c a, Nat.xor_comm c a, ← Nat.xor_assoc (x ^^^ a) a c,
      xor_xor_cancel]
  rw [h, xor_xor_cancel]

theorem xorApply_apply (l : List (Nat × Nat)) (f : Nat → Nat) (i : Nat) :
    xorApply l f i = f i ^^^ xorSum i l := by
  induction l generalizing f with
  | nil => simp [xorApply, xorSum]
  | cons p t ih =>
    have hstep : xorApply (p :: t) f = xorApply t (updXor f p.1 p.2) := rfl
    rw [hstep, ih, updXor_apply]
    rcases eq_or_ne p.1 i with h | h
    · subst h
      rw [if_pos rfl]
      show f p.1 ^^^ p.2 ^^^ xorSum p.1 t = _ ^^^ xorSum p.1 (p :: t)
      have : xorSum p.1 (p :: t) = p.2 ^^^ xorSum p.1 t := by
        simp [xorSum]
      rw [this, Nat.xor_assoc]
    · rw [if_neg (fun hh => h hh.symm)]
      have : xorSum i (p :: t) = xorSum i t := by
        simp [xorSum, h]
      rw [this]

theorem xorApply_involutive (l : List (Nat × Nat)) (f : Nat → Nat) :
    xorApply l (xorApply l f) = f := by
  funext i
  rw [xorApply_apply, xorApply_apply, xor_xor_cancel]

theorem make_move_eq_xorApply (board : Nat → Nat) (m : Move) :
    make_move board m = xorApply (moveXorList m) board := by
  cases hc : m.color <;> cases hcap : m.capture <;>
    simp only [make_move, moveXorList, hc, hcap] <;> rfl

/-- C1: Make/unmake round-trip.  For every board state and every move
(pseudo-legal or not — the XOR toggles cancel regardless), applying
board.rs `make_move` and then `unmake_move` with the same move restores
all 8 bitboards to their exact prior bit pattern (equivalently, since
`unmake_move` replays `make_move`, applying `make_move` twice is the
identity); and over the spec-modelled full board, `unmake_move` after
`make_move` also restores the exact prior castling-rights values (for a
king move this needs the pseudo-legality fact that the king really stood
on the move's from-square). -/
theorem make_unmake_roundtrip (board : Nat → Nat) (m : Move) (b : Board)
    (hking : m.piece = Piece.King → b.own_king = m.from') :
    unmake_move (make_move board m) m = board ∧
    unmake_move_spec (make_move_spec b m).1 m (make_move_spec b m).2 = b := by
  constructor
  · show make_move (make_move board m) m = board
    rw [make_move_eq_xorApply board, make_move_eq_xorApply]
    exact xorApply_involutive _ _
  · cases b with
    | mk own opp ortho diag pawns oking ooking ocr pcr fl =>
      by_cases hk : m.piece = Piece.King
      · simp [make_move_spec, unmake_move_spec, move_involution, hk, xor_xor_cancel,
          xor_swap_cancel, (hking hk).symm]
      · simp [make_move_spec, unmake_move_spec, move_involution, hk, xor_xor_cancel,
          xor_swap_cancel]

/-- C1 witness: the round trip evaluated at a concrete board and move (a
white rook capturing a pawn). -/
theorem make_unmake_roundtrip_witness :
    unmake_move
        (make_move (fun i => if i = 0 then 129 else 0)
          ⟨0, 8, Piece.Rook, Color.White, some Piece.Pawn, MoveCategory.Normal⟩)
        ⟨0, 8, Piece.Rook, Color.White, some Piece.Pawn, MoveCategory.Normal⟩ =
      (fun i => if i = 0 then 129 else 0) ∧
    unmake_move_spec
        (make_move_spec ⟨129, 256, 129, 0, 256, 4, 60, ⟨true, true⟩, ⟨true, true⟩, false⟩
          ⟨0, 8, Piece.Rook, Color.White, some Piece.Pawn, MoveCategory.Normal⟩).1
        ⟨0, 8, Piece.Rook, Color.White, some Piece.Pawn, MoveCategory.Normal⟩
        (make_move_spec ⟨129, 256, 129, 0, 256, 4, 60, ⟨true, true⟩, ⟨true, true⟩, false⟩
          ⟨0, 8, Piece.Rook, Color.White, some Piece.Pawn, MoveCategory.Normal⟩).2 =
      ⟨129, 256, 129, 0, 256, 4, 60, ⟨true, true⟩, ⟨true, true⟩, false⟩ :=
  make_unmake_roundtrip (fun i => if i = 0 then 129 else 0)
    ⟨0, 8, Piece.Rook, Color.White, some Piece.Pawn, MoveCategory.Normal⟩
    ⟨129, 256, 129, 0, 256, 4, 60, ⟨true, true⟩, ⟨true, true⟩, false⟩
    (by intro h; exact absurd h (by decide))

/-- C3: `make_move`'s non-involutive postconditions over the spec-modelled
board: the returned `UndoInfo` holds both sides' castling-rights pairs as
they were before the move; `own_king` is updated exactly when the mover is
the king; moving the king clears both of the mover's rights; a rook leaving
its home square clears that side's corresponding right; a rook captured on
its home square clears the corresponding right of the rook's owner. -/
theorem make_move_spec_postconditions (b : Board) (m : Move) :
    (make_move_spec b m).2.own_castling_rights = b.own_castling_rights ∧
    (make_move_spec b m).2.opp_castling_rights = b.opp_castling_rights ∧
    (m.piece = Piece.King → (make_move_spec b m).1.own_king = m.to') ∧
    (m.piece ≠ Piece.King → (make_move_spec b m).1.own_king = b.own_king) ∧
    (m.piece = Piece.King → (make_move_spec b m).1.own_castling_rights = ⟨false, false⟩) ∧
    (m.piece = Piece.Rook → m.from' = 7 →
      (make_move_spec b m).1.own_castling_rights.kingside = false) ∧
    (m.piece = Piece.Rook → m.from' = 0 →
      (make_move_spec b m).1.own_castling_rights.queenside = false) ∧
    (m.capture = some Piece.Rook → m.to' = 63 →
      (make_move_spec b m).1.opp_castling_rights.kingside = false) ∧
    (m.capture = some Piece.Rook → m.to' = 56 →
      (make_move_spec b m).1.opp_castling_rights.queenside = false) := by
  refine ⟨rfl, rfl, ?_, ?_, ?_, ?_, ?_, ?_, ?_⟩
  · intro h; simp [make_move_spec, h]
  · intro h; simp [make_move_spec, h, move_involution]
  · intro h; simp [make_move_spec, h]
  · intro h hf
    have hk : m.piece ≠ Piece.King := by rw [h]; decide
    simp [make_move_spec, hk, h, hf]
  · intro h hf
    have hk : m.piece ≠ Piece.King := by rw [h]; decide
    rcases eq_or_ne m.from' 7 with h7 | h7
    · simp [make_move_spec, hk, h, hf, h7]
    · simp [make_move_spec, hk, h, hf, h7]
  · intro h h63; simp [make_move_spec, h, h63]
  · intro h h56
    rcases eq_or_ne m.to' 63 with h63 | h63
    · rw [h63] at h56; exact absurd h56 (by decide)
    · simp [make_move_spec, h, h56, h63]

/-- C5: Ray tables.  After initialization, every stored ray excludes its
own square in all 8 directions; the north ray of square 28 (e4) is exactly
the OR of the bits for 36, 44, 52 and 60 (e5–e8); and every bit on a
diagonal ray lies on the same diagonal (north-east/south-west) or
anti-diagonal (north-west/south-east) band as its origin, strictly further
in the ray's direction — so no diagonal ray ever wraps across the
a-file/h-file boundary. -/
theorem ray_tables_correct :
    (∀ s, s < 64 → ∀ o : Orientation, (ray s o).testBit s = false) ∧
    north_ray 28 = (shl64 1 36 ||| shl64 1 44 ||| shl64 1 52 ||| shl64 1 60) ∧
    (∀ s, s < 64 → ∀ t, t < 64 →
      ((north_east_ray s).testBit t = true →
        diag_index t = diag_index s ∧ rank_idx s < rank_idx t) ∧
      ((north_west_ray s).testBit t = true →
        anti_diag_index t = anti_diag_index s ∧ rank_idx s < rank_idx t)) ∧
    (∀ s, s < 64 → ∀ t, t < 64 →
      ((south_east_ray s).testBit t = true →
        anti_diag_index t = anti_diag_index s ∧ rank_idx t < rank_idx s) ∧
      ((south_west_ray s).testBit t = true →
        diag_index t = diag_index s ∧ rank_idx t < rank_idx s)) :=
  ⟨by decide, by decide, by decide, by decide⟩

/-- C6: Square-index bijection.  For every square index below 64 the rank
and file projections land in the asserted ranges and
`square_idx (rank_idx i) (file_idx i) = i`. -/
theorem square_idx_bijection (i : Nat) (h : i < 64) :
    rank_idx i < 8 ∧ file_idx i < 8 ∧ square_idx (rank_idx i) (file_idx i) = i := by
  revert i
  decide

/-- C6 witness: the bijection evaluated at square 63. -/
theorem square_idx_bijection_witness :
    rank_idx 63 < 8 ∧ file_idx 63 < 8 ∧ square_idx (rank_idx 63) (file_idx 63) = 63 :=
  square_idx_bijection 63 (by decide)

theorem tzAux_spec (state : Nat) :
    ∀ fuel k,
      (tzAux state fuel k = k + fuel ∧
        ∀ j, k ≤ j → j < k + fuel → state.testBit j = false) ∨
      (k ≤ tzAux state fuel k ∧ tzAux state fuel k < k + fuel ∧
        state.testBit (tzAux state fuel k) = true ∧
        ∀ j, k ≤ j → j < tzAux state fuel k → state.testBit j = false) := by
  intro fuel
  induction fuel with
  | zero => intro k; exact Or.inl ⟨rfl, fun j h1 h2 => absurd (Nat.lt_of_le_of_lt h1 h2) (by omega)⟩
  | succ n ih =>
    intro k
    by_cases hb : state.testBit k
    · right
      rw [tzAux, if_pos hb]
      exact ⟨Nat.le_refl k, by omega, hb, fun j h1 h2 => absurd (Nat.lt_of_le_of_lt h1 h2) (by omega)⟩
    · rw [tzAux, if_neg hb]
      rcases ih (k + 1) with ⟨heq, hall⟩ | ⟨h1, h2, h3, h4⟩
      · left
        refine ⟨by omega, fun j hj1 hj2 => ?_⟩
        rcases Nat.eq_or_lt_of_le hj1 with hj | hj
        · subst hj; simpa using hb
        · exact hall j hj (by omega)
      · right
        refine ⟨by omega, by omega, h3, fun j hj1 hj2 => ?_⟩
        rcases Nat.eq_or_lt_of_le hj1 with hj | hj
        · subst hj; simpa using hb
        · exact h4 j hj hj2

theorem bitscan_lsd_spec (state : Nat) (hlt : state < 2 ^ 64) (hne : state ≠ 0) :
    ∃ k, bitscan_lsd state = some k ∧ state.testBit k = true ∧
      ∀ j, j < k → state.testBit j = false := by
  rcases tzAux_spec state 64 0 with ⟨heq, hall⟩ | ⟨_, h2, h3, h4⟩
  · exfalso
    apply hne
    apply Nat.eq_of_testBit_eq
    intro j
    simp only [Nat.zero_testBit]
    rcases Nat.lt_or_ge j 64 with hj | hj
    · exact hall j (Nat.zero_le j) (by omega)
    · exact Nat.testBit_lt_two_pow (Nat.lt_of_lt_of_le hlt (Nat.pow_le_pow_right (by omega) hj))
  · refine ⟨tzAux state 64 0, ?_, h3, fun j hj => h4 j (Nat.zero_le j) hj⟩
    unfold bitscan_lsd trailing_zeros
    rw [if_neg (by omega)]

/-- C7: Bit-scan.  Scanning the empty bitboard yields the absent value
`none` (a normal outcome, not a failure); scanning `1 <<< k` yields `k` for
every `k` below 64; for every nonzero 64-bit board the result is the index
of the lowest set bit; and scanning `(1 <<< 1) ||| (1 <<< 5)` yields 1. -/
theorem bitscan_lsd_correct :
    bitscan_lsd 0 = none ∧
    (∀ k, k < 64 → bitscan_lsd (shl64 1 k) = some k) ∧
    (∀ state, state < 2 ^ 64 → state ≠ 0 →
      ∃ k, bitscan_lsd state = some k ∧ state.testBit k = true ∧
        ∀ j, j < k → state.testBit j = false) ∧
    bitscan_lsd (shl64 1 1 ||| shl64 1 5) = some 1 :=
  ⟨by decide, by decide, fun state h1 h2 => bitscan_lsd_spec state h1 h2, by decide⟩

theorem serializeAux_spec :
    ∀ fuel state, state < 2 ^ 64 → (∀ j, state.testBit j = true → 64 - fuel ≤ j) →
      List.Chain' (· < ·) (serializeAux fuel state) ∧
      (∀ i, i ∈ serializeAux fuel state ↔ state.testBit i = true) := by
  intro fuel
  induction fuel with
  | zero =>
    intro state hlt hge
    refine ⟨List.chain'_nil, fun i => ?_⟩
    simp only [serializeAux, List.not_mem_nil, false_iff]
    intro hbit
    have h64 : 64 ≤ i := by simpa using hge i hbit
    have : state.testBit i = false :=
      Nat.testBit_lt_two_pow (Nat.lt_of_lt_of_le hlt (Nat.pow_le_pow_right (by omega) h64))
    rw [this] at hbit
    exact Bool.false_ne_true hbit
  | succ fuel ih =>
    intro state hlt hge
    by_cases hz : state = 0
    · subst hz
      simp [serializeAux, Nat.zero_testBit]
    · obtain ⟨k, hscan, hk, hmin⟩ := bitscan_lsd_spec state hlt hz
      have hk64 : k < 64 := by
        by_contra hge64
        have : state.testBit k = false :=
          Nat.testBit_lt_two_pow
            (Nat.lt_of_lt_of_le hlt (Nat.pow_le_pow_right (by omega) (by omega)))
        rw [this] at hk
        exact Bool.false_ne_true hk
      have hpow : shl64 1 k = 2 ^ k := by
        unfold shl64
        rw [Nat.one_shiftLeft]
        exact Nat.mod_eq_of_lt (Nat.pow_lt_pow_right (by omega) hk64)
      have hstep : serializeAux (fuel + 1) state = k :: serializeAux fuel (state ^^^ shl64 1 k) := by
        rw [serializeAux, if_neg hz, hscan]
      set state' := state ^^^ shl64 1 k with hstate'
      have hbit' : ∀ j, j ≠ k → state'.testBit j = state.testBit j := by
        intro j hj
        rw [hstate', hpow, Nat.testBit_xor, Nat.testBit_two_pow,
          decide_eq_false (fun hh => hj hh.symm), Bool.xor_false]
      have hkbit' : state'.testBit k = false := by
        rw [hstate', hpow, Nat.testBit_xor, Nat.testBit_two_pow, decide_eq_true rfl, hk]
        rfl
      have hgt : ∀ j, state'.testBit j = true → k < j := by
        intro j hj
        rcases Nat.lt_trichotomy j k with h | h | h
        · rw [hbit' j (by omega), hmin j h] at hj
          exact absurd hj Bool.false_ne_true
        · subst h; rw [hkbit'] at hj; exact absurd hj Bool.false_ne_true
        · exact h
      have hlt' : state' < 2 ^ 64 :=
        Nat.xor_lt_two_pow hlt (by rw [hpow]; exact Nat.pow_lt_pow_right (by omega) hk64)
      have hge' : ∀ j, state'.testBit j = true → 64 - fuel ≤ j := by
        intro j hj
        have h1 : k < j := hgt j hj
        have h2 : 64 - (fuel + 1) ≤ k := hge k hk
        omega
      obtain ⟨hchain, hmem⟩ := ih state' hlt' hge'
      rw [hstep]
      constructor
      · rw [List.chain'_cons']
        refine ⟨fun y hy => ?_, hchain⟩
        have hymem : y ∈ serializeAux fuel state' := List.mem_of_mem_head? hy
        exact hgt y ((hmem y).mp hymem)
      · intro i
        rw [List.mem_cons, hmem i]
        constructor
        · rintro (rfl | hi)
          · exact hk
          · rcases eq_or_ne i k with rfl | hne
            · exact hk
            · rw [← hbit' i hne]; exact hi
        · intro hi
          rcases eq_or_ne i k with rfl | hne
          · exact Or.inl rfl
          · exact Or.inr (by rw [hbit' i hne]; exact hi)

theorem serialize_board_mem (b : Nat) (h : b < 2 ^ 64) :
    ∀ i, i ∈ serialize_board b ↔ b.testBit i = true :=
  (serializeAux_spec 64 b h (fun j _ => by omega)).2

theorem serialize_board_chain (b : Nat) (h : b < 2 ^ 64) :
    List.Chain' (· < ·) (serialize_board b) :=
  (serializeAux_spec 64 b h (fun j _ => by omega)).1

theorem serialize_board_mem_lt (b : Nat) (h : b < 2 ^ 64) :
    ∀ i ∈ serialize_board b, i < 64 := by
  intro i hi
  have hbit := (serialize_board_mem b h i).mp hi
  by_contra hge
  have : b.testBit i = false :=
    Nat.testBit_lt_two_pow (Nat.lt_of_lt_of_le h (Nat.pow_le_pow_right (by omega) (by omega)))
  rw [this] at hbit
  exact Bool.false_ne_true hbit

theorem foldOr_testBit (l : List Nat) (hl : ∀ i ∈ l, i < 64) (acc : Nat) (j : Nat) :
    (l.foldl (fun acc i => acc ||| shl64 1 i) acc).testBit j = true ↔
      (acc.testBit j = true ∨ j ∈ l) := by
  induction l generalizing acc with
  | nil => simp
  | cons i t iht =>
    have hpow : shl64 1 i = 2 ^ i := by
      unfold shl64
      rw [Nat.one_shiftLeft]
      exact Nat.mod_eq_of_lt (Nat.pow_lt_pow_right (by omega) (hl i (List.mem_cons_self i t)))
    have hstep : (i :: t).foldl (fun acc i => acc ||| shl64 1 i) acc =
        t.foldl (fun acc i => acc ||| shl64 1 i) (acc ||| shl64 1 i) := rfl
    rw [hstep, iht (fun x hx => hl x (List.mem_cons_of_mem i hx)), Nat.testBit_or]
    simp only [Bool.or_eq_true, Nat.testBit_two_pow, decide_eq_true_eq, List.mem_cons, hpow]
    constructor
    · rintro (⟨h | h⟩ | h)
      · exact Or.inl h
      · exact Or.inr (Or.inl h.symm)
      · exact Or.inr (Or.inr h)
    · rintro (h | h | h)
      · exact Or.inl (Or.inl h)
      · exact Or.inl (Or.inr h.symm)
      · exact Or.inr h

/-- C8: Serialization round-trip.  For every 64-bit bitboard,
`serialize_board` returns exactly the indices of its set bits in strictly
ascending order, and OR-ing `1 <<< i` back over the returned indices
reproduces the bitboard exactly. -/
theorem serialize_board_roundtrip (b : Nat) (h : b < 2 ^ 64) :
    List.Chain' (· < ·) (serialize_board b) ∧
    (∀ i, i ∈ serialize_board b ↔ b.testBit i = true) ∧
    (serialize_board b).foldl (fun acc i => acc ||| shl64 1 i) 0 = b := by
  refine ⟨serialize_board_chain b h, serialize_board_mem b h, ?_⟩
  apply Nat.eq_of_testBit_eq
  intro j
  have hiff := foldOr_testBit (serialize_board b) (serialize_board_mem_lt b h) 0 j
  by_cases hb : b.testBit j = true
  · have hm : j ∈ serialize_board b := (serialize_board_mem b h j).mpr hb
    rw [hiff.mpr (Or.inr hm), hb]
  · have hb' : b.testBit j = false := by
      cases hbv : b.testBit j
      · rfl
      · exact absurd hbv hb
    have hl' : ((serialize_board b).foldl (fun acc i => acc ||| shl64 1 i) 0).testBit j = false := by
      cases hlv : ((serialize_board b).foldl (fun acc i => acc ||| shl64 1 i) 0).testBit j
      · rfl
      · rcases hiff.mp hlv with hz | hm
        · rw [Nat.zero_testBit] at hz
          exact absurd hz Bool.false_ne_true
        · exact absurd ((serialize_board_mem b h j).mp hm) hb
    rw [hl', hb']

/-- C8 witness: the round trip evaluated at `(1 <<< 1) ||| (1 <<< 5) = 34`. -/
theorem serialize_board_roundtrip_witness :
    List.Chain' (· < ·) (serialize_board 34) ∧
    (∀ i, i ∈ serialize_board 34 ↔ (34 : Nat).testBit i = true) ∧
    (serialize_board 34).foldl (fun acc i => acc ||| shl64 1 i) 0 = 34 :=
  serialize_board_roundtrip 34 (by norm_num)

theorem parse_sliding_moves_no_pieces (moves : Nat) (orientation : Orientation) :
    parse_sliding_moves moves 0 orientation = none := by
  cases orientation <;> rfl

/-- C9: Implicit totality gap.  For every board whose `ortho_sliders`
bitboard is 0, both `ortho_moves` and `diag_moves` reach
`parse_sliding_moves` with an empty slider set (in the source `diag_moves`
also floods `ortho_sliders`), where `sorted_piece_idxs[0]` is indexed out
of bounds — embedded as `none` — so neither generator is total over all
boards. -/
theorem sliding_generators_not_total (b : Board) (h : b.ortho_sliders = 0) :
    ortho_moves b = none ∧ diag_moves b = none := by
  constructor
  · show (parse_sliding_moves _ b.ortho_sliders .North).bind _ = none
    rw [h, parse_sliding_moves_no_pieces]
    rfl
  · show (parse_sliding_moves _ b.ortho_sliders .NorthEast).bind _ = none
    rw [h, parse_sliding_moves_no_pieces]
    rfl

/-- C9 witness: a board with a lone bishop (no rook or queen of either
side) makes both sliding generators hit the out-of-bounds index. -/
theorem sliding_generators_not_total_witness :
    ortho_moves ⟨2, 0, 0, 2, 0, 4, 60, ⟨true, true⟩, ⟨true, true⟩, false⟩ = none ∧
    diag_moves ⟨2, 0, 0, 2, 0, 4, 60, ⟨true, true⟩, ⟨true, true⟩, false⟩ = none :=
  sliding_generators_not_total ⟨2, 0, 0, 2, 0, 4, 60, ⟨true, true⟩, ⟨true, true⟩, false⟩ rfl

/-- C2: `diag_moves` evaluated at a board whose only piece is an own rook
on square 0 (a1), so `ortho_sliders = 1` and `diag_sliders = 0`.  Were its
four diagonal attack sets computed from `diag_sliders` — as the claim and
the function's own doc comment say — the generator would emit no moves;
instead it floods `ortho_sliders` and emits the rook's entire north-east
diagonal as bishop moves from square 0. -/
theorem diag_moves_reads_ortho_sliders :
    (⟨1, 0, 1, 0, 0, 4, 60, ⟨true, true⟩, ⟨true, true⟩, false⟩ : Board).diag_sliders = 0 ∧
    diag_moves ⟨1, 0, 1, 0, 0, 4, 60, ⟨true, true⟩, ⟨true, true⟩, false⟩ =
      some
        [⟨0, 9, Piece.Bishop, Color.White, none, MoveCategory.Normal⟩,
         ⟨0, 18, Piece.Bishop, Color.White, none, MoveCategory.Normal⟩,
         ⟨0, 27, Piece.Bishop, Color.White, none, MoveCategory.Normal⟩,
         ⟨0, 36, Piece.Bishop, Color.White, none, MoveCategory.Normal⟩,
         ⟨0, 45, Piece.Bishop, Color.White, none, MoveCategory.Normal⟩,
         ⟨0, 54, Piece.Bishop, Color.White, none, MoveCategory.Normal⟩,
         ⟨0, 63, Piece.Bishop, Color.White, none, MoveCategory.Normal⟩] := by
  constructor
  · rfl
  · decide

theorem index_bounds :
    ∀ p, p < 64 →
      rank_idx p < 8 ∧ file_idx p < 8 ∧ diag_index p < 15 ∧ anti_diag_index p < 15 := by
  decide

theorem axis_key_lt (o : Orientation) (p : Nat) (hp : p < 64) : axis_key o p < 15 := by
  obtain ⟨h1, h2, h3, h4⟩ := index_bounds p hp
  cases o <;> simp only [axis_key, Orientation.axis] <;> omega

theorem axisFold_getElem (o : Orientation) :
    ∀ (l : List Nat) (init : List (Option Nat)), init.length = 15 →
      (∀ p ∈ l, axis_key o p < 15) → ∀ i, i < 15 →
      (l.foldl (fun arr piece_idx => arr.set (axis_key o piece_idx) (some piece_idx)) init)[i]? =
        (match (l.filter (fun p => axis_key o p == i)).getLast? with
         | some q => some (some q)
         | none => init[i]?) := by
  intro l
  induction l with
  | nil =>
    intro init hlen hkeys i hi
    simp
  | cons p t ih =>
    intro init hlen hkeys i hi
    have hstep :
        (p :: t).foldl (fun arr piece_idx => arr.set (axis_key o piece_idx) (some piece_idx)) init =
          t.foldl (fun arr piece_idx => arr.set (axis_key o piece_idx) (some piece_idx))
            (init.set (axis_key o p) (some p)) := rfl
    rw [hstep,
      ih (init.set (axis_key o p) (some p)) (by rw [List.length_set]; exact hlen)
        (fun x hx => hkeys x (List.mem_cons_of_mem p hx)) i hi,
      List.filter_cons]
    by_cases hk : axis_key o p = i
    · subst hk
      simp only [beq_self_eq_true, if_true]
      rcases hfl : (t.filter (fun x => axis_key o x == axis_key o p)).getLast? with _ | q
      · rw [List.getLast?_cons, hfl]
        simp only [Option.getD_none]
        exact List.getElem?_set_self (hlen ▸ hkeys p (List.mem_cons_self p t))
      · rw [List.getLast?_cons, hfl]
        simp only [Option.getD_some]
    · have hbeq : (axis_key o p == i) = false := by simp [hk]
      rw [hbeq]
      simp only [Bool.false_eq_true, if_false]
      rcases (t.filter (fun x => axis_key o x == i)).getLast? with _ | q
      · exact List.getElem?_set_ne hk
      · rfl

/-- C4 counterexample: the claim as stated groups east/west sliders by rank
index.  For the East direction with a single slider on square 1 (b1: rank
0, file 1), the grouping array holds nothing at rank index 0 and holds the
slider at file index 1. -/
theorem colinear_grouping_counterexample :
    rank_idx 1 = 0 ∧ file_idx 1 = 1 ∧
    (axis_wise_arr Orientation.East (serialize_board 2))[0]? = some none ∧
    (axis_wise_arr Orientation.East (serialize_board 2))[1]? = some (some 1) := by
  decide

/-- C4 (amended): in the sliding-move decomposition, for every slider
bitboard the sliders are grouped into the 15-entry per-axis array by FILE
index for the east and west directions, by RANK index for the north and
south directions, by anti-diagonal index for north-east/south-west and by
diagonal index for south-east/north-west; each array cell stores at most
one slider — the last-serialized (highest-index) slider with that axis-band
key, an earlier colinear-keyed slider being overwritten. -/
theorem colinear_grouping (o : Orientation) (pieces : Nat) (h : pieces < 2 ^ 64)
    (i : Nat) (hi : i < 15) :
    (axis_wise_arr o (serialize_board pieces))[i]? =
      some ((serialize_board pieces).filter (fun p => axis_key o p == i)).getLast? ∧
    (∀ p, axis_key Orientation.East p = file_idx p ∧ axis_key Orientation.West p = file_idx p ∧
      axis_key Orientation.North p = rank_idx p ∧ axis_key Orientation.South p = rank_idx p ∧
      axis_key Orientation.NorthEast p = anti_diag_index p ∧
      axis_key Orientation.SouthWest p = anti_diag_index p ∧
      axis_key Orientation.SouthEast p = diag_index p ∧
      axis_key Orientation.NorthWest p = diag_index p) := by
  constructor
  · have hrep : (List.replicate 15 (none : Option Nat))[i]? = some none :=
      List.getElem?_replicate_of_lt hi
    have hfold := axisFold_getElem o (serialize_board pieces) (List.replicate 15 none)
      (List.length_replicate 15 none)
      (fun p hp => axis_key_lt o p (serialize_board_mem_lt pieces h p hp)) i hi
    rw [show axis_wise_arr o (serialize_board pieces) =
        (serialize_board pieces).foldl
          (fun arr piece_idx => arr.set (axis_key o piece_idx) (some piece_idx))
          (List.replicate 15 none) from rfl,
      hfold]
    rcases ((serialize_board pieces).filter (fun p => axis_key o p == i)).getLast? with _ | q
    · rw [hrep]
    · rfl
  · intro p
    exact ⟨rfl, rfl, rfl, rfl, rfl, rfl, rfl, rfl⟩

/-- C4 witness: the grouping characterization evaluated for the East
direction at the slider bitboard 2 (one slider on square 1) and cell 1. -/
theorem colinear_grouping_witness :
    (axis_wise_arr Orientation.East (serialize_board 2))[1]? =
      some ((serialize_board 2).filter (fun p => axis_key Orientation.East p == 1)).getLast? ∧
    (∀ p, axis_key Orientation.East p = file_idx p ∧ axis_key Orientation.West p = file_idx p ∧
      axis_key Orientation.North p = rank_idx p ∧ axis_key Orientation.South p = rank_idx p ∧
      axis_key Orientation.NorthEast p = anti_diag_index p ∧
      axis_key Orientation.SouthWest p = anti_diag_index p ∧
      axis_key Orientation.SouthEast p = diag_index p ∧
      axis_key Orientation.NorthWest p = diag_index p) :=
  colinear_grouping Orientation.East 2 (by norm_num) 1 (by norm_num)

theorem comp64_testBit {x : Nat} (hx : x < 2 ^ 64) (t : Nat) :
    (comp64 x).testBit t = true ↔ (t < 64 ∧ x.testBit t = false) := by
  unfold comp64 UNIVERSAL_SET
  rw [show (18446744073709551615 : Nat) = 2 ^ 64 - 1 by norm_num, Nat.testBit_xor,
    Nat.testBit_two_pow_sub_one]
  by_cases ht : t < 64
  · simp [ht]
  · have hbit : x.testBit t = false :=
      Nat.testBit_lt_two_pow
        (Nat.lt_of_lt_of_le hx (Nat.pow_le_pow_right (by omega) (by omega)))
    simp [ht, hbit]

theorem serialize_board_nodup (b : Nat) (h : b < 2 ^ 64) : (serialize_board b).Nodup :=
  List.Pairwise.imp Nat.ne_of_lt (List.chain'_iff_pairwise.mp (serialize_board_chain b h))

theorem filter_beq_of_not_mem {l : List Nat} {t : Nat} (h : t ∉ l) :
    l.filter (fun x => x == t) = [] := by
  induction l with
  | nil => rfl
  | cons a l ih =>
    rw [List.filter_cons]
    have hne : (a == t) = false := by
      simp only [beq_eq_false_iff_ne, ne_eq]
      intro haa
      subst haa
      exact h (List.mem_cons_self a l)
    rw [hne]
    simp only [Bool.false_eq_true, if_false]
    exact ih (fun hm => h (List.mem_cons_of_mem a hm))

theorem filter_beq_of_nodup {l : List Nat} (hnd : l.Nodup) {t : Nat} (ht : t ∈ l) :
    l.filter (fun x => x == t) = [t] := by
  induction l with
  | nil => cases ht
  | cons a l ih =>
    rw [List.filter_cons]
    rcases List.mem_cons.mp ht with rfl | hm
    · rw [beq_self_eq_true]
      simp only [if_true]
      rw [filter_beq_of_not_mem (List.nodup_cons.mp hnd).1]
    · have hne : (a == t) = false := by
        simp only [beq_eq_false_iff_ne, ne_eq]
        intro haa
        subst haa
        exact (List.nodup_cons.mp hnd).1 hm
      rw [hne]
      simp only [Bool.false_eq_true, if_false]
      exact ih (List.nodup_cons.mp hnd).2 hm

theorem filter_to_of_map (l : List Nat) (g : Nat → Move) (hg : ∀ x, (g x).to' = x) (t : Nat) :
    (l.map g).filter (fun m => m.to' == t) = (l.filter (fun x => x == t)).map g := by
  induction l with
  | nil => rfl
  | cons a l ih =>
    rw [List.map_cons, List.filter_cons, List.filter_cons, hg a]
    by_cases hb : (a == t) = true
    · rw [hb]
      simp only [if_true]
      rw [List.map_cons, ih]
    · have hb' : (a == t) = false := by
        cases hv : (a == t)
        · rfl
        · exact absurd hv hb
      rw [hb']
      simp only [Bool.false_eq_true, if_false]
      exact ih

/-- C10: Implicit king-capture anomaly.  The second loop of `king_moves`
iterates over the quiet-move bitboard `king_movement & empty` (not the
capture bitboard), so every move `king_moves` emits targets an empty
square — never an opponent-occupied one — and each quiet destination is
emitted exactly twice: once with capture `none` and once tagged with
capture `some (identify to)`. -/
theorem king_moves_capture_anomaly (b : Board)
    (hown : b.own_pieces < 2 ^ 64) (hopp : b.opp_pieces < 2 ^ 64) :
    (∀ m ∈ king_moves b,
      (king_movement b.own_king &&& b.empty).testBit m.to' = true ∧
      b.opp_pieces.testBit m.to' = false) ∧
    (∀ t, (king_movement b.own_king &&& b.empty).testBit t = true →
      ((king_moves b).filter (fun m => m.to' == t)).map Move.capture =
        [none, some (b.identify t)]) := by
  have hocc : b.own_pieces ||| b.opp_pieces < 2 ^ 64 := Nat.or_lt_two_pow hown hopp
  have hemp : b.empty < 2 ^ 64 := by
    rw [show b.empty = comp64 (b.own_pieces ||| b.opp_pieces) from rfl]
    unfold comp64 UNIVERSAL_SET
    exact Nat.xor_lt_two_pow (by norm_num) hocc
  have hq : king_movement b.own_king &&& b.empty < 2 ^ 64 := Nat.and_lt_two_pow _ hemp
  have hkm : king_moves b =
      (serialize_board (king_movement b.own_king &&& b.empty)).map (fun t' =>
        ({ from' := b.own_king, to' := t', piece := Piece.King, color := b.color,
           capture := none, category := MoveCategory.Normal } : Move)) ++
      (serialize_board (king_movement b.own_king &&& b.empty)).map (fun t' =>
        ({ from' := b.own_king, to' := t', piece := Piece.King, color := b.color,
           capture := some (b.identify t'), category := MoveCategory.Normal } : Move)) := by
    simp only [king_moves, parse_single_piece_moves, List.map_map]
    rfl
  have hto : ∀ m ∈ king_moves b,
      (king_movement b.own_king &&& b.empty).testBit m.to' = true := by
    intro m hm
    rw [hkm] at hm
    rcases List.mem_append.mp hm with hm1 | hm1 <;>
      obtain ⟨t', ht', rfl⟩ := List.mem_map.mp hm1 <;>
      exact (serialize_board_mem _ hq t').mp ht'
  constructor
  · intro m hm
    have hbit := hto m hm
    refine ⟨hbit, ?_⟩
    have hetb : b.empty.testBit m.to' = true := by
      rw [Nat.testBit_and, Bool.and_eq_true] at hbit
      exact hbit.2
    rw [show b.empty = comp64 (b.own_pieces ||| b.opp_pieces) from rfl] at hetb
    obtain ⟨ht64, hocc'⟩ := (comp64_testBit hocc m.to').mp hetb
    rw [Nat.testBit_or] at hocc'
    exact (Bool.or_eq_false_iff.mp hocc').2
  · intro t ht
    have hmem : t ∈ serialize_board (king_movement b.own_king &&& b.empty) :=
      (serialize_board_mem _ hq t).mpr ht
    have hnd := serialize_board_nodup _ hq
    rw [hkm, List.filter_append, filter_to_of_map _ _ (fun x => rfl) t,
      filter_to_of_map _ _ (fun x => rfl) t, filter_beq_of_nodup hnd hmem]
    rfl

/-- C10 witness: the anomaly evaluated at a board with the own king on a1,
an own rook on g1 and an opponent piece on b2. -/
theorem king_moves_capture_anomaly_witness :
    (∀ m ∈ king_moves ⟨65, 512, 64, 0, 0, 0, 60, ⟨true, true⟩, ⟨true, true⟩, false⟩,
      (king_movement (⟨65, 512, 64, 0, 0, 0, 60, ⟨true, true⟩, ⟨true, true⟩, false⟩ : Board).own_king &&&
        (⟨65, 512, 64, 0, 0, 0, 60, ⟨true, true⟩, ⟨true, true⟩, false⟩ : Board).empty).testBit m.to' = true ∧
      (⟨65, 512, 64, 0, 0, 0, 60, ⟨true, true⟩, ⟨true, true⟩, false⟩ : Board).opp_pieces.testBit m.to' = false) ∧
    (∀ t, (king_movement (⟨65, 512, 64, 0, 0, 0, 60, ⟨true, true⟩, ⟨true, true⟩, false⟩ : Board).own_king &&&
        (⟨65, 512, 64, 0, 0, 0, 60, ⟨true, true⟩, ⟨true, true⟩, false⟩ : Board).empty).testBit t = true →
      ((king_moves ⟨65, 512, 64, 0, 0, 0, 60, ⟨true, true⟩, ⟨true, true⟩, false⟩).filter
          (fun m => m.to' == t)).map Move.capture =
        [none, some ((⟨65, 512, 64, 0, 0, 0, 60, ⟨true, true⟩, ⟨true, true⟩, false⟩ : Board).identify t)]) :=
  king_moves_capture_anomaly ⟨65, 512, 64, 0, 0, 0, 60, ⟨true, true⟩, ⟨true, true⟩, false⟩
    (by norm_num) (by norm_num)

end Deciduous
